import Mathlib

/-!
# Verification of the Pulse preprocessing pipeline

Shallow embedding of `src/data/preprocess.py` (functions `prepare_user_data`,
`window_features`, `build_dataset`) and proofs about it.

Modelling conventions:
* timestamps are integers (seconds); `pandas` datetimes at second resolution;
* numeric sample values are rationals (`ℚ`); a missing value (`NaN`) is `none`
  in an `Option ℚ` column;
* `pandas` sample standard deviation (`ddof = 1`) is represented by the sample
  variance (`sampleVar`), since `√` does not live in `ℚ`; `std x = 0 ↔ var x = 0`
  and `std` is undefined (`NaN`, i.e. `none`) exactly where `var` is;
* a `DataFrame` is a column-name list plus typed rows; diagnostics printed by
  the Python code are modelled by an explicit `Diag` list.
-/

namespace Pulse

/-- Arithmetic mean of a list of rationals (`0` on the empty list, which only
arises for empty windows). -/
def listMean (xs : List ℚ) : ℚ := xs.sum / xs.length

/-- `pandas` mean aggregation over a bin: `NaN` (`none`) on an empty bin. -/
def listMeanO (xs : List ℚ) : Option ℚ :=
  if xs.isEmpty then none else some (listMean xs)

/-- `pandas` sample variance (`ddof = 1`): defined only for two or more
observations, `NaN` (`none`) otherwise.  Stands in for `std` (see module
docstring). -/
def sampleVar (xs : List ℚ) : Option ℚ :=
  if 2 ≤ xs.length then
    some ((xs.map (fun x => (x - listMean xs) ^ 2)).sum / ((xs.length : ℚ) - 1))
  else none

/-- `pandas` skip-NaN mean over a column that may contain missing values. -/
def meanO (xs : List (Option ℚ)) : Option ℚ := listMeanO (xs.filterMap id)

/-- Forward fill (`DataFrame.ffill`) with the most recent valid value `cur`. -/
def ffillGo {α : Type} (cur : Option α) : List (Option α) → List (Option α)
  | [] => []
  | some v :: xs => some v :: ffillGo (some v) xs
  | none :: xs => cur :: ffillGo cur xs

/-- `DataFrame.ffill`: propagate the nearest prior valid value forward. -/
def ffill {α : Type} (l : List (Option α)) : List (Option α) := ffillGo none l

/-- `DataFrame.bfill`: propagate the nearest following valid value backward. -/
def bfill {α : Type} (l : List (Option α)) : List (Option α) :=
  (ffillGo none l.reverse).reverse

/-- The consecutive integers `lo, lo+1, …, lo+n-1`. -/
def intRange (lo : Int) : Nat → List Int
  | 0 => []
  | n + 1 => lo :: intRange (lo + 1) n

/-- One row of a merged per-user table: `timestamp`, `HR`, `Vector Magnitude`,
`Steps` (the columns `window_features` consumes). -/
structure Row where
  ts : Int
  hr : ℚ
  vm : ℚ
  steps : ℚ
  deriving DecidableEq, Inhabited, Repr

/-- A `DataFrame`: its column names together with its (typed) rows. -/
structure Df where
  cols : List String
  rows : List Row
  deriving DecidableEq, Inhabited, Repr

/-- Diagnostics the pipeline prints (modelling the `print` calls). -/
inductive Diag where
  | noData (uid : String)
  | missingCols (uid : String) (missing : List String)
  | noFeatures (uid : String)
  | missingSleep (uid : String)
  deriving DecidableEq, Repr

/-! ## `window_features` -/

/-- `expected_cols = ["HR", "Vector Magnitude", "Steps"]`. -/
def expected_cols : List String := ["HR", "Vector Magnitude", "Steps"]

/-- `df.set_index("timestamp").sort_index()`: sort by timestamp. -/
def sortByTs (rows : List Row) : List Row :=
  List.insertionSort (fun a b => a.ts ≤ b.ts) rows

/-- Values of signal `f` inside the trailing time window of length `w` ending
at row `i` (pandas `rolling(window=w)` on a time index: rows `j ≤ i` with
`ts i - w < ts j`, window closed on the right). -/
def windVals (f : Row → ℚ) (rows : List Row) (w : Int) (i : Nat) : List ℚ :=
  ((rows.take (i + 1)).filter
    (fun s => decide ((rows.getD i default).ts - w < s.ts))).map f

/-- `rolling(window=w, min_periods=1).mean()` of signal `f`, one value per row. -/
def rollMeanCol (f : Row → ℚ) (rows : List Row) (w : Int) : List ℚ :=
  (List.range rows.length).map (fun i => listMean (windVals f rows w i))

/-- `rolling(window=w, min_periods=1).std()` of signal `f` (as a variance,
`none` where pandas yields `NaN`), one value per row. -/
def rollStdCol (f : Row → ℚ) (rows : List Row) (w : Int) : List (Option ℚ) :=
  (List.range rows.length).map (fun i => sampleVar (windVals f rows w i))

/-- The configured rolling-window lengths, in seconds: `['300s', '900s']`. -/
def windows : List Int := [300, 900]

/-- A full-resolution row after the feature-engineering step: the raw signals
plus the (gap-filled) rolling features for both window lengths. -/
structure RRow where
  ts : Int
  hr : ℚ
  vm : ℚ
  steps : ℚ
  hr_roll_mean_300 : ℚ
  hr_roll_std_300 : Option ℚ
  vm_roll_mean_300 : ℚ
  hr_roll_mean_900 : ℚ
  hr_roll_std_900 : Option ℚ
  vm_roll_mean_900 : ℚ
  deriving DecidableEq, Inhabited, Repr

/-- Rows after adding the rolling-statistics columns and applying
`df.ffill()` then `df.bfill()` (only the rolling-std columns can hold `NaN`). -/
def featEng (rows : List Row) : List RRow :=
  let m3 := rollMeanCol (fun r => r.hr) rows 300
  let s3 := bfill (ffill (rollStdCol (fun r => r.hr) rows 300))
  let v3 := rollMeanCol (fun r => r.vm) rows 300
  let m9 := rollMeanCol (fun r => r.hr) rows 900
  let s9 := bfill (ffill (rollStdCol (fun r => r.hr) rows 900))
  let v9 := rollMeanCol (fun r => r.vm) rows 900
  (List.range rows.length).map (fun i =>
    let r := rows.getD i default
    { ts := r.ts, hr := r.hr, vm := r.vm, steps := r.steps
      hr_roll_mean_300 := m3.getD i 0, hr_roll_std_300 := s3.getD i none
      vm_roll_mean_300 := v3.getD i 0, hr_roll_mean_900 := m9.getD i 0
      hr_roll_std_900 := s9.getD i none, vm_roll_mean_900 := v9.getD i 0 })

/-- Midnight of the calendar day containing `t` (`origin='start_day'` of
`DataFrame.resample`). -/
def midnight (t : Int) : Int := 86400 * (t.fdiv 86400)

/-- Index of the aggregation bin containing `t`, for bins of width `w`
anchored at `origin` (floor division, as in `pandas` resampling). -/
def binIdx (origin w t : Int) : Int := (t - origin).fdiv w

/-- Left edge (= output label) of bin number `k`. -/
def binStart (origin w k : Int) : Int := origin + w * k

/-- Minimum timestamp of a row list (`0` on the empty list). -/
def minTs (rows : List Row) : Int :=
  match rows with
  | [] => 0
  | r :: rs => rs.foldl (fun a s => min a s.ts) r.ts

/-- Maximum timestamp of a row list (`0` on the empty list). -/
def maxTs (rows : List Row) : Int :=
  match rows with
  | [] => 0
  | r :: rs => rs.foldl (fun a s => max a s.ts) r.ts

/-- One aggregated `FeatureWindow` row: bin-start timestamp, user id, and the
flattened aggregate columns of `window_features`. -/
structure FeatRow where
  ts : Int
  user_id : String
  hr_mean : Option ℚ
  hr_std : Option ℚ
  vm_mean : Option ℚ
  vm_std : Option ℚ
  steps_sum : ℚ
  hr_roll_mean_300s_mean : Option ℚ
  hr_roll_std_300s_mean : Option ℚ
  vm_roll_mean_300s_mean : Option ℚ
  hr_roll_mean_900s_mean : Option ℚ
  hr_roll_std_900s_mean : Option ℚ
  vm_roll_mean_900s_mean : Option ℚ
  deriving DecidableEq, Inhabited, Repr

/-- Aggregation of the rows of one bin (`resample(freq).agg(agg_dict)`):
mean/std for `HR` and `Vector Magnitude`, sum for `Steps` (an empty bin sums
to `0`), skip-NaN mean for every rolling-feature column. -/
def aggBin (uid : String) (t : Int) (rs : List RRow) : FeatRow :=
  { ts := t, user_id := uid
    hr_mean := listMeanO (rs.map (fun r => r.hr))
    hr_std := sampleVar (rs.map (fun r => r.hr))
    vm_mean := listMeanO (rs.map (fun r => r.vm))
    vm_std := sampleVar (rs.map (fun r => r.vm))
    steps_sum := (rs.map (fun r => r.steps)).sum
    hr_roll_mean_300s_mean := listMeanO (rs.map (fun r => r.hr_roll_mean_300))
    hr_roll_std_300s_mean := meanO (rs.map (fun r => r.hr_roll_std_300))
    vm_roll_mean_300s_mean := listMeanO (rs.map (fun r => r.vm_roll_mean_300))
    hr_roll_mean_900s_mean := listMeanO (rs.map (fun r => r.hr_roll_mean_900))
    hr_roll_std_900s_mean := meanO (rs.map (fun r => r.hr_roll_std_900))
    vm_roll_mean_900s_mean := listMeanO (rs.map (fun r => r.vm_roll_mean_900)) }

/-- `window_features(df, user_id, freq)`: column check, sort, rolling
features, gap filling, fixed-bin aggregation.  `pandas` resampling emits one
row for every bin between the first and the last occupied bin (empty interior
bins included), with bins anchored at midnight of the first sample's day. -/
def window_features (df : Df) (uid : String) (w : Int := 60) :
    List FeatRow × List Diag :=
  if expected_cols.all (fun c => df.cols.contains c) then
    let sorted := sortByTs df.rows
    if sorted.isEmpty then ([], [])
    else
      let rrs := featEng sorted
      let origin := midnight (minTs sorted)
      let kmin := binIdx origin w (minTs sorted)
      let kmax := binIdx origin w (maxTs sorted)
      let ks := intRange kmin (kmax - kmin + 1).toNat
      (ks.map (fun k =>
        aggBin uid (binStart origin w k)
          (rrs.filter (fun r => decide (binIdx origin w r.ts = k)))), [])
  else
    ([], [Diag.missingCols uid
      (expected_cols.filter (fun c => !(df.cols.contains c)))])

/-! ## `prepare_user_data` (SignalMerger) -/

/-- A raw heart-interval sample: `(timestamp, ibi_s)`. -/
abbrev RRSample := Int × ℚ

/-- `rr_df["bpm"] = 60 / rr_df["ibi_s"]`. -/
def toBpm (rr : List RRSample) : List (Int × ℚ) :=
  rr.map (fun p => (p.1, 60 / p.2))

/-- `rr_df[~rr_df.index.duplicated(keep="first")]`: keep the first row seen
for each timestamp, preserving order. -/
def dedupGo (seen : List Int) : List (Int × ℚ) → List (Int × ℚ)
  | [] => []
  | x :: xs =>
    if x.1 ∈ seen then dedupGo seen xs else x :: dedupGo (x.1 :: seen) xs

/-- Timestamp deduplication, first write wins. -/
def dedupFirst (l : List (Int × ℚ)) : List (Int × ℚ) := dedupGo [] l

/-- Mean of the samples of `l` lying in the one-second bin at `t` (`none`
when the second is unoccupied). -/
def secMean (l : List (Int × ℚ)) (t : Int) : Option ℚ :=
  listMeanO ((l.filter (fun p => decide (p.1 = t))).map (fun p => p.2))

/-- Earliest timestamp of a series (`0` on the empty series). -/
def minFst (l : List (Int × ℚ)) : Int :=
  match l with
  | [] => 0
  | x :: xs => xs.foldl (fun b s => min b s.1) x.1

/-- Latest timestamp of a series (`0` on the empty series). -/
def maxFst (l : List (Int × ℚ)) : Int :=
  match l with
  | [] => 0
  | x :: xs => xs.foldl (fun b s => max b s.1) x.1

/-- `.resample("1s").mean()`: the per-second grid from the earliest to the
latest observed timestamp, with the per-second mean (`none` = `NaN`). -/
def resample1s (l : List (Int × ℚ)) : List (Int × Option ℚ) :=
  match l with
  | [] => []
  | x :: xs =>
    (intRange (minFst (x :: xs)) ((maxFst (x :: xs) - minFst (x :: xs) + 1).toNat)).map
      (fun t => (t, secMean (x :: xs) t))

/-- Nearest valid value strictly before `t` in a per-second series. -/
def prevSome (l : List (Int × Option ℚ)) (t : Int) : Option (Int × ℚ) :=
  ((l.filterMap (fun p => p.2.map (fun v => (p.1, v)))).filter
    (fun p => decide (p.1 < t))).getLast?

/-- Nearest valid value strictly after `t` in a per-second series. -/
def nextSome (l : List (Int × Option ℚ)) (t : Int) : Option (Int × ℚ) :=
  ((l.filterMap (fun p => p.2.map (fun v => (p.1, v)))).filter
    (fun p => decide (t < p.1))).head?

/-- The interpolated value at position `t` whose current value is `v`: a
present value is kept; a missing one becomes the linear interpolant of the
surrounding valid values (the last valid value if nothing valid follows,
still missing if nothing valid precedes). -/
def interpVal (l : List (Int × Option ℚ)) (t : Int) (v : Option ℚ) : Option ℚ :=
  match v with
  | some v => some v
  | none =>
    match prevSome l t, nextSome l t with
    | some q0, some q1 =>
      some (q0.2 + (q1.2 - q0.2) * (t - q0.1) / (q1.1 - q0.1))
    | some q0, none => some q0.2
    | none, _ => none

/-- `Series.interpolate()` (linear, forward direction). -/
def interp (l : List (Int × Option ℚ)) : List (Int × Option ℚ) :=
  l.map (fun p => (p.1, interpVal l p.1 p.2))

/-- The interpolated per-second rate series `rr_interp` built from the raw
heart-interval samples. -/
def rrInterp (rr : List RRSample) : List (Int × Option ℚ) :=
  interp (resample1s (dedupFirst (toBpm rr)))

/-- One row of the merged per-user table: the activity row plus the (possibly
missing) interpolated rate. -/
structure MRow where
  ts : Int
  hr : ℚ
  vm : ℚ
  steps : ℚ
  bpm : Option ℚ
  deriving DecidableEq, Inhabited, Repr

/-- The output rows one activity row contributes to the left join: one row
per matching rate-series timestamp, or a single row with a missing rate. -/
def mergeOne (rrs : List (Int × Option ℚ)) (a : Row) : List MRow :=
  let ms := rrs.filter (fun p => decide (p.1 = a.ts))
  if ms.isEmpty then
    [{ ts := a.ts, hr := a.hr, vm := a.vm, steps := a.steps, bpm := none }]
  else ms.map (fun m =>
    { ts := a.ts, hr := a.hr, vm := a.vm, steps := a.steps, bpm := m.2 })

/-- `pd.merge(act_df, rr_interp, on="timestamp", how="left")`: every activity
row is kept; each match in the rate series produces one output row, no match
produces a single row with a missing rate. -/
def mergeLeft (act : List Row) (rrs : List (Int × Option ℚ)) : List MRow :=
  act.flatMap (mergeOne rrs)

/-- `prepare_user_data` (its pure transformation): rate conversion,
deduplication, per-second resampling and interpolation, then the left join
onto the activity timeline. -/
def prepare_user_data (rr : List RRSample) (act : List Row) : List MRow :=
  mergeLeft act (rrInterp rr)

/-! ## Sleep labelling and `build_dataset` -/

/-- The labelling lambda of `build_dataset`:
`any((ts >= start) & (ts <= end) for start, end in zip(...))`. -/
def isSleeping (ts : Int) (ivs : List (Int × Int)) : Bool :=
  ivs.any (fun iv => decide (iv.1 ≤ ts) && decide (ts ≤ iv.2))

/-- A `FeatureWindow` row together with its `is_sleeping` label. -/
structure LRow extends FeatRow where
  is_sleeping : Bool
  deriving DecidableEq, Repr

/-- Attach the interval-containment label to every feature row. -/
def labelFeats (feats : List FeatRow) (ivs : List (Int × Int)) : List LRow :=
  feats.map (fun f => { toFeatRow := f, is_sleeping := isSleeping f.ts ivs })

/-- The per-user inputs `build_dataset` reads for one `user_*` directory:
`load_user_data` result (`none` = unreadable/absent) and the parsed sleep
intervals (`none` = no `sleep.csv`). -/
structure UserInput where
  uid : String
  data : Option Df
  sleep : Option (List (Int × Int))
  deriving DecidableEq

/-- The body of `build_dataset`'s per-user loop: skip (with a diagnostic) on
missing data or empty feature result; label from `sleep.csv` when present,
otherwise label everything `False` and warn. -/
def processUser (u : UserInput) : Option (List LRow) × List Diag :=
  match u.data with
  | none => (none, [Diag.noData u.uid])
  | some df =>
    if df.rows.isEmpty then (none, [Diag.noData u.uid])
    else
      let fd := window_features df u.uid 60
      if fd.1.isEmpty then (none, fd.2 ++ [Diag.noFeatures u.uid])
      else
        match u.sleep with
        | some ivs => (some (labelFeats fd.1 ivs), fd.2)
        | none =>
          (some (fd.1.map (fun f => { toFeatRow := f, is_sleeping := false })),
            fd.2 ++ [Diag.missingSleep u.uid])

/-- `build_dataset`: process every discovered user, then fail when no user
directory was found or when every user was skipped, otherwise concatenate the
surviving per-user tables in processing order. -/
def buildDataset (users : List UserInput) :
    Except String (List LRow) × List Diag :=
  let results := users.map processUser
  let diags := (results.map (fun p => p.2)).flatten
  if users.isEmpty then (Except.error "No user directories found", diags)
  else
    let surviving := results.filterMap (fun p => p.1)
    if surviving.isEmpty then
      (Except.error "No valid user data processed", diags)
    else (Except.ok surviving.flatten, diags)

/-! ## Concrete sample inputs used by witnesses and counterexamples -/

/-- A well-formed two-sample merged table (samples at `t = 0` and `t = 120`,
leaving the 60-second bin `[60, 120)` empty). -/
def dfC : Df :=
  { cols := ["timestamp", "HR", "Vector Magnitude", "Steps"]
    rows := [{ ts := 0, hr := 70, vm := 1, steps := 2 },
             { ts := 120, hr := 70, vm := 2, steps := 3 }] }

/-- A merged table lacking the `Steps` column. -/
def dfNoSteps : Df :=
  { cols := ["timestamp", "HR", "Vector Magnitude"]
    rows := [{ ts := 0, hr := 70, vm := 1, steps := 2 }] }

/-- A single-sample table whose timestamp (`t = 90`) is not bin-aligned. -/
def dfOff : Df :=
  { cols := ["timestamp", "HR", "Vector Magnitude", "Steps"]
    rows := [{ ts := 90, hr := 70, vm := 1, steps := 2 }] }

/-- A user with valid data but no `sleep.csv`. -/
def uNoSleep : UserInput := { uid := "user_1", data := some dfC, sleep := none }

/-- A user with valid data and one sleep interval. -/
def uWithSleep : UserInput :=
  { uid := "user_2", data := some dfC, sleep := some [(0, 59)] }

/-- A user whose raw data could not be loaded. -/
def uNoData : UserInput := { uid := "user_3", data := none, sleep := none }

/-- A concrete labelled row, as `labelFeats` produces it. -/
def lrowC : LRow :=
  { toFeatRow := aggBin "user_1" 36180 []
    is_sleeping := isSleeping (aggBin "user_1" 36180 []).ts [(36000, 36300)] }

/-- The resample origin `window_features` uses for `df`: midnight of the
first (sorted) sample's day. -/
def wfOrigin (df : Df) : Int := midnight (minTs (sortByTs df.rows))

/-- Index of the first occupied aggregation bin of `df` at width `w`. -/
def wfKmin (df : Df) (w : Int) : Int :=
  binIdx (wfOrigin df) w (minTs (sortByTs df.rows))

/-- Index of the last occupied aggregation bin of `df` at width `w`. -/
def wfKmax (df : Df) (w : Int) : Int :=
  binIdx (wfOrigin df) w (maxTs (sortByTs df.rows))

/-- The first aggregated feature row of the concrete table `dfC`. -/
def frowC : FeatRow := (window_features dfC "user_1" 60).1.getD 0 default

/-- Concrete heart-interval samples with a duplicated timestamp (`t = 10`
appears twice, first with `ibi = 1`). -/
def rrC : List RRSample := [(10, 1), (10, 2), (12, 1/2)]

/-- A concrete activity timeline containing the duplicated timestamp once. -/
def actC : List Row :=
  [{ ts := 10, hr := 70, vm := 1, steps := 0 },
   { ts := 11, hr := 71, vm := 1, steps := 0 },
   { ts := 12, hr := 72, vm := 1, steps := 0 }]

/-! ## Claim theorems -/

/-- **C1.** The `is_sleeping` label `build_dataset` attaches to a window at
timestamp `t` is `true` iff some sleep interval satisfies `start ≤ t ≤ end`
(closed bounds, logical OR over possibly unsorted/overlapping intervals); and
on the single interval `[10:00, 10:05]` (seconds since midnight) the window
timestamps `{09:59, 10:00, 10:03, 10:05, 10:06}` are labelled
`{false, true, true, true, false}`. -/
theorem c1_sleep_label :
    (∀ (ivs : List (Int × Int)) (feats : List FeatRow) (r : LRow),
        r ∈ labelFeats feats ivs →
        (r.is_sleeping = true ↔ ∃ iv ∈ ivs, iv.1 ≤ r.ts ∧ r.ts ≤ iv.2)) ∧
    ([35940, 36000, 36180, 36300, 36360].map
        (fun t => isSleeping t [(36000, 36300)]) =
      [false, true, true, true, false]) := by
  constructor
  · intro ivs feats r hr
    simp only [labelFeats, List.mem_map] at hr
    obtain ⟨f, _, rfl⟩ := hr
    simp [isSleeping, List.any_eq_true, Bool.and_eq_true, decide_eq_true_eq]
  · decide

/-- Witness for C1 at a concrete labelled row. -/
theorem c1_sleep_label_witness :
    lrowC.is_sleeping = true ↔
      ∃ iv ∈ [((36000 : Int), (36300 : Int))],
        iv.1 ≤ lrowC.ts ∧ lrowC.ts ≤ iv.2 :=
  c1_sleep_label.1 [(36000, 36300)] [aggBin "user_1" 36180 []] lrowC
    (List.mem_singleton.mpr rfl)

/-- **C5.** If any required signal column is missing from the input table,
`window_features` returns an empty result together with the missing-field
set as a recorded skip reason, computing no features (and, being a total
function, raising nothing). -/
theorem c5_missing_signal_skip (df : Df) (uid : String) (w : Int)
    (h : ∃ c ∈ expected_cols, c ∉ df.cols) :
    window_features df uid w =
      ([], [Diag.missingCols uid
        (expected_cols.filter (fun c => !(df.cols.contains c)))]) := by
  have hall : expected_cols.all (fun c => df.cols.contains c) = false := by
    rcases h with ⟨c, hc, hnc⟩
    rw [Bool.eq_false_iff]
    intro hforall
    exact hnc (List.elem_iff.mp (List.all_eq_true.mp hforall c hc))
  unfold window_features
  rw [hall]
  simp

/-- Witness for C5: a table lacking the step-count column. -/
theorem c5_missing_signal_skip_witness :
    window_features dfNoSteps "user_1" 60 =
      ([], [Diag.missingCols "user_1"
        (expected_cols.filter (fun c => !(dfNoSteps.cols.contains c)))]) :=
  c5_missing_signal_skip dfNoSteps "user_1" 60 (by decide)

/-- **C4.** A user whose sleep-session file is absent is processed without
error: `processUser` keeps all of the user's feature rows, labels each of
them `is_sleeping = false`, emits the non-fatal warning diagnostic, and
`build_dataset` still succeeds on any user list containing that user, with
the user's rows retained in the final dataset. -/
theorem c4_missing_sleep_degrades (u : UserInput) (df : Df)
    (hdf : u.data = some df) (hne : df.rows.isEmpty = false)
    (hfe : (window_features df u.uid 60).1.isEmpty = false)
    (hs : u.sleep = none) :
    processUser u =
      (some ((window_features df u.uid 60).1.map
        (fun f => { toFeatRow := f, is_sleeping := false })),
        (window_features df u.uid 60).2 ++ [Diag.missingSleep u.uid]) ∧
    (∀ r ∈ (processUser u).1.getD [], r.is_sleeping = false) ∧
    (∀ users, u ∈ users →
      ∃ out, (buildDataset users).1 = Except.ok out ∧
        ∀ r ∈ (processUser u).1.getD [], r ∈ out) := by
  have h1 : processUser u =
      (some ((window_features df u.uid 60).1.map
        (fun f => { toFeatRow := f, is_sleeping := false })),
        (window_features df u.uid 60).2 ++ [Diag.missingSleep u.uid]) := by
    unfold processUser
    rw [hdf]
    simp [hne, hfe, hs]
  refine ⟨h1, ?_, ?_⟩
  · rw [h1]
    intro r hr
    simp only [Option.getD_some, List.mem_map] at hr
    obtain ⟨f, _, rfl⟩ := hr
    rfl
  · intro users hu
    set L := (window_features df u.uid 60).1.map
      (fun f => ({ toFeatRow := f, is_sleeping := false } : LRow)) with hL
    have hmem : L ∈ (users.map processUser).filterMap (fun p => p.1) := by
      apply List.mem_filterMap.mpr
      exact ⟨processUser u, List.mem_map_of_mem processUser hu, by rw [h1]⟩
    have husers : users.isEmpty = false :=
      List.isEmpty_eq_false.mpr (List.ne_nil_of_mem hu)
    have hnall : ¬ ∀ a ∈ users, (processUser a).1 = none := by
      intro h
      have hL := h u hu
      rw [h1] at hL
      exact Option.noConfusion hL
    refine ⟨((users.map processUser).filterMap (fun p => p.1)).flatten, ?_, ?_⟩
    · unfold buildDataset
      simp [husers, hnall, List.filterMap_map]
    · intro r hr
      rw [h1] at hr
      simp only [Option.getD_some] at hr
      exact List.mem_flatten.mpr ⟨L, hmem, hr⟩

/-- Witness for C4: the concrete user `uNoSleep` (valid data, no
`sleep.csv`). -/
theorem c4_missing_sleep_degrades_witness :
    processUser uNoSleep =
      (some ((window_features dfC uNoSleep.uid 60).1.map
        (fun f => { toFeatRow := f, is_sleeping := false })),
        (window_features dfC uNoSleep.uid 60).2 ++
          [Diag.missingSleep uNoSleep.uid]) ∧
    (∀ r ∈ (processUser uNoSleep).1.getD [], r.is_sleeping = false) ∧
    (∀ users, uNoSleep ∈ users →
      ∃ out, (buildDataset users).1 = Except.ok out ∧
        ∀ r ∈ (processUser uNoSleep).1.getD [], r ∈ out) :=
  c4_missing_sleep_degrades uNoSleep dfC rfl (by decide) (by decide) rfl

/-- **C6.** `build_dataset` fails fatally exactly when zero user directories
were discovered or every discovered user was skipped; otherwise it returns
the concatenation, in processing order, of the surviving users' tables. -/
theorem c6_fatal_error_cases (users : List UserInput) :
    ((∃ e, (buildDataset users).1 = Except.error e) ↔
      users = [] ∨ ∀ u ∈ users, (processUser u).1 = none) ∧
    (users ≠ [] → (∃ u ∈ users, (processUser u).1 ≠ none) →
      (buildDataset users).1 =
        Except.ok ((users.map processUser).filterMap (fun p => p.1)).flatten) := by
  have hsurv : ((users.map processUser).filterMap (fun p => p.1)) = [] ↔
      ∀ u ∈ users, (processUser u).1 = none := by
    rw [List.filterMap_eq_nil_iff]
    exact List.forall_mem_map
  by_cases h1 : users = []
  · subst h1
    constructor
    · simp [buildDataset]
    · intro h
      exact absurd rfl h
  · have h1' : users.isEmpty = false := List.isEmpty_eq_false.mpr h1
    by_cases h2 : ∀ u ∈ users, (processUser u).1 = none
    · have h2' : ((users.map processUser).filterMap (fun p => p.1)) = [] := hsurv.mpr h2
      have hb : (buildDataset users).1 = Except.error "No valid user data processed" := by
        unfold buildDataset
        rw [h1']
        rw [if_neg Bool.false_ne_true, if_pos (List.isEmpty_iff.mpr h2')]
      refine ⟨⟨fun _ => Or.inr h2, fun _ => ⟨_, hb⟩⟩, ?_⟩
      intro _ hex
      rcases hex with ⟨u, hu, hnn⟩
      exact absurd (h2 u hu) hnn
    · have h2' : ((users.map processUser).filterMap (fun p => p.1)) ≠ [] := fun h =>
        h2 (hsurv.mp h)
      have hb : (buildDataset users).1 =
          Except.ok ((users.map processUser).filterMap (fun p => p.1)).flatten := by
        unfold buildDataset
        rw [h1']
        rw [if_neg Bool.false_ne_true,
          if_neg (fun hI => h2' (List.isEmpty_iff.mp hI))]
      refine ⟨⟨?_, ?_⟩, fun _ _ => hb⟩
      · rintro ⟨e, he⟩
        rw [hb] at he
        exact Except.noConfusion he
      · rintro (h | h)
        · exact absurd h h1
        · exact absurd h h2

/-- Witness for C6: one surviving user yields the concatenated dataset. -/
theorem c6_fatal_error_cases_witness :
    (buildDataset [uWithSleep]).1 =
      Except.ok (([uWithSleep].map processUser).filterMap (fun p => p.1)).flatten :=
  (c6_fatal_error_cases [uWithSleep]).2 (by decide) (by decide)

/-- **C3, counterexample.** A user whose sleep-session file is missing is
*not* skipped: `uNoSleep` (valid data, no interval file) survives with three
feature rows, and `build_dataset` on it alone succeeds — contradicting the
claim that a missing interval file causes the user to contribute no rows. -/
theorem c3_counterexample :
    (processUser uNoSleep).1.isSome = true ∧
    ((processUser uNoSleep).1.getD []).length = 3 ∧
    (buildDataset [uNoSleep]).1.isOk = true := by
  decide

/-- **C3 (amended).** The per-user soft failures that skip a user while the
run continues and a diagnostic is recorded are: missing raw data, an empty
input table, and an empty feature result (which is what a missing required
signal produces); a missing interval file does **not** skip the user.  A
skipped user contributes nothing to the surviving tables, and the remaining
users are processed as if the skipped user were absent. -/
theorem c3_soft_failure_skips (u : UserInput) :
    (u.data = none → processUser u = (none, [Diag.noData u.uid])) ∧
    (∀ df, u.data = some df → df.rows = [] →
      processUser u = (none, [Diag.noData u.uid])) ∧
    (∀ df, u.data = some df → df.rows ≠ [] →
      (window_features df u.uid 60).1 = [] →
      processUser u =
        (none, (window_features df u.uid 60).2 ++ [Diag.noFeatures u.uid])) ∧
    (∀ rest, (processUser u).1 = none →
      ((u :: rest).map processUser).filterMap (fun p => p.1) =
        (rest.map processUser).filterMap (fun p => p.1)) := by
  refine ⟨?_, ?_, ?_, ?_⟩
  · intro h
    unfold processUser
    rw [h]
  · intro df hdf hrows
    unfold processUser
    rw [hdf]
    simp [hrows]
  · intro df hdf hrows hfe
    unfold processUser
    rw [hdf]
    simp [List.isEmpty_eq_false.mpr hrows, hfe]
  · intro rest hnone
    simp only [List.map_cons, List.filterMap_cons, hnone]

/-- Witness for C3: a user with unreadable raw data is skipped, and the
survivors of `[uNoData, uWithSleep]` are exactly those of `[uWithSleep]`. -/
theorem c3_soft_failure_skips_witness :
    processUser uNoData = (none, [Diag.noData uNoData.uid]) ∧
    (([uNoData, uWithSleep].map processUser).filterMap (fun p => p.1) =
      ([uWithSleep].map processUser).filterMap (fun p => p.1)) :=
  ⟨(c3_soft_failure_skips uNoData).1 rfl,
    (c3_soft_failure_skips uNoData).2.2.2 [uWithSleep] (by decide)⟩

/-! ## Helper lemmas on binning -/

lemma getD_zero_mem {α : Type} [Inhabited α] (l : List α) (h : l ≠ []) :
    l.getD 0 default ∈ l := by
  match l with
  | [] => exact absurd rfl h
  | x :: xs => exact List.mem_cons_self x xs

lemma mem_intRange {x lo : Int} : ∀ {n : Nat}, x ∈ intRange lo n ↔ lo ≤ x ∧ x < lo + n := by
  intro n
  induction n generalizing lo with
  | zero => simp [intRange]
  | succ m ih =>
    simp only [intRange, List.mem_cons, ih]
    omega

lemma intRange_nodup : ∀ (n : Nat) (lo : Int), (intRange lo n).Nodup := by
  intro n
  induction n with
  | zero => intro lo; simp [intRange]
  | succ m ih =>
    intro lo
    simp only [intRange, List.nodup_cons]
    exact ⟨fun h => by have := mem_intRange.mp h; omega, ih (lo + 1)⟩

lemma binIdx_eq_iff {origin w t k : Int} (hw : 0 < w) :
    binIdx origin w t = k ↔
      binStart origin w k ≤ t ∧ t < binStart origin w k + w := by
  unfold binIdx binStart
  rw [Int.fdiv_eq_ediv _ (le_of_lt hw)]
  constructor
  · rintro rfl
    have heq := Int.ediv_add_emod (t - origin) w
    have hr0 := Int.emod_nonneg (t - origin) (ne_of_gt hw)
    have hrw := Int.emod_lt_of_pos (t - origin) hw
    constructor
    · nlinarith [heq, hr0]
    · nlinarith [heq, hrw]
  · rintro ⟨h1, h2⟩
    have hx : t - origin = (t - origin - w * k) + w * k := by ring
    have h0 : 0 ≤ t - origin - w * k := by linarith
    have hlt : t - origin - w * k < w := by linarith
    rw [hx, Int.add_mul_ediv_left _ k (ne_of_gt hw),
      Int.ediv_eq_zero_of_lt h0 hlt, zero_add]

lemma binIdx_mono {origin w t t' : Int} (hw : 0 < w) (h : t ≤ t') :
    binIdx origin w t ≤ binIdx origin w t' := by
  unfold binIdx
  rw [Int.fdiv_eq_ediv _ (le_of_lt hw), Int.fdiv_eq_ediv _ (le_of_lt hw)]
  exact Int.ediv_le_ediv hw (by linarith)

lemma binStart_inj {origin w a b : Int} (hw : 0 < w)
    (h : binStart origin w a = binStart origin w b) : a = b := by
  unfold binStart at h
  exact Int.eq_of_mul_eq_mul_left (ne_of_gt hw) (by linarith)

lemma foldl_min_le {α : Type} (f : α → Int) : ∀ (rs : List α) (a : Int),
    rs.foldl (fun b s => min b (f s)) a ≤ a := by
  intro rs
  induction rs with
  | nil => intro a; exact le_refl a
  | cons s t ih =>
    intro a
    exact le_trans (ih (min a (f s))) (min_le_left _ _)

lemma foldl_min_le_mem {α : Type} (f : α → Int) : ∀ (rs : List α) (a : Int)
    (r : α), r ∈ rs → rs.foldl (fun b s => min b (f s)) a ≤ f r := by
  intro rs
  induction rs with
  | nil => intro a r h; exact absurd h (List.not_mem_nil r)
  | cons s t ih =>
    intro a r h
    rcases List.mem_cons.mp h with h | h
    · subst h
      exact le_trans (foldl_min_le f t (min a (f r))) (min_le_right _ _)
    · exact ih (min a (f s)) r h

lemma le_foldl_max {α : Type} (f : α → Int) : ∀ (rs : List α) (a : Int),
    a ≤ rs.foldl (fun b s => max b (f s)) a := by
  intro rs
  induction rs with
  | nil => intro a; exact le_refl a
  | cons s t ih =>
    intro a
    exact le_trans (le_max_left a (f s)) (ih (max a (f s)))

lemma le_foldl_max_mem {α : Type} (f : α → Int) : ∀ (rs : List α) (a : Int)
    (r : α), r ∈ rs → f r ≤ rs.foldl (fun b s => max b (f s)) a := by
  intro rs
  induction rs with
  | nil => intro a r h; exact absurd h (List.not_mem_nil r)
  | cons s t ih =>
    intro a r h
    rcases List.mem_cons.mp h with h | h
    · subst h
      exact le_trans (le_max_right a (f r)) (le_foldl_max f t (max a (f r)))
    · exact ih (max a (f s)) r h

lemma minTs_le {rows : List Row} {r : Row} (h : r ∈ rows) : minTs rows ≤ r.ts := by
  match rows with
  | [] => exact absurd h (List.not_mem_nil r)
  | s :: rs =>
    rcases List.mem_cons.mp h with h | h
    · subst h
      exact foldl_min_le (fun s => s.ts) rs r.ts
    · exact foldl_min_le_mem (fun s => s.ts) rs s.ts r h

lemma le_maxTs {rows : List Row} {r : Row} (h : r ∈ rows) : r.ts ≤ maxTs rows := by
  match rows with
  | [] => exact absurd h (List.not_mem_nil r)
  | s :: rs =>
    rcases List.mem_cons.mp h with h | h
    · subst h
      exact le_foldl_max (fun s => s.ts) rs r.ts
    · exact le_foldl_max_mem (fun s => s.ts) rs s.ts r h

lemma minFst_le {l : List (Int × ℚ)} {p : Int × ℚ} (h : p ∈ l) :
    minFst l ≤ p.1 := by
  match l with
  | [] => exact absurd h (List.not_mem_nil p)
  | s :: rs =>
    rcases List.mem_cons.mp h with h | h
    · subst h
      exact foldl_min_le (fun s => s.1) rs p.1
    · exact foldl_min_le_mem (fun s => s.1) rs s.1 p h

lemma le_maxFst {l : List (Int × ℚ)} {p : Int × ℚ} (h : p ∈ l) :
    p.1 ≤ maxFst l := by
  match l with
  | [] => exact absurd h (List.not_mem_nil p)
  | s :: rs =>
    rcases List.mem_cons.mp h with h | h
    · subst h
      exact le_foldl_max (fun s => s.1) rs p.1
    · exact le_foldl_max_mem (fun s => s.1) rs s.1 p h

lemma window_features_rows_eq (df : Df) (uid : String) (w : Int)
    (hcols : expected_cols.all (fun c => df.cols.contains c) = true)
    (hne : sortByTs df.rows ≠ []) :
    (window_features df uid w).1 =
      (intRange (wfKmin df w) ((wfKmax df w - wfKmin df w + 1).toNat)).map
        (fun k => aggBin uid (binStart (wfOrigin df) w k)
          ((featEng (sortByTs df.rows)).filter
            (fun r => decide (binIdx (wfOrigin df) w r.ts = k)))) := by
  unfold window_features wfKmin wfKmax wfOrigin
  rw [hcols]
  simp [List.isEmpty_eq_false.mpr hne]

/-- **C2, counterexample.** `window_features` emits a row for an *empty*
interior bin: on `dfC` (samples at `t = 0` and `t = 120` only) it produces an
output row with bin start `60` although no input sample lies in `[60, 120)` —
contradicting "a bin that contains no input samples contributes no output
row". -/
theorem c2_counterexample :
    (∃ r ∈ (window_features dfC "user_1" 60).1, r.ts = 60) ∧
    (dfC.rows.filter (fun s => decide (60 ≤ s.ts ∧ s.ts < 120))).length = 0 := by
  decide

/-- **C2 (amended).** `window_features` produces exactly one row per bin in
the contiguous bin range from the first to the last occupied bin: every
occupied bin contributes exactly one row, but an empty bin lying between two
occupied bins contributes a row as well (with `NaN` means and a zero step
sum), as `pandas` resampling emits the full regular grid. -/
theorem c2_row_per_bin (df : Df) (uid : String) (w : Int) (hw : 0 < w)
    (hcols : expected_cols.all (fun c => df.cols.contains c) = true)
    (hne : sortByTs df.rows ≠ []) :
    ((window_features df uid w).1.map (fun r => r.ts) =
      (intRange (wfKmin df w) ((wfKmax df w - wfKmin df w + 1).toNat)).map
        (binStart (wfOrigin df) w)) ∧
    (∀ t0, (∃ s ∈ df.rows, s.ts = t0) →
      ((window_features df uid w).1.filter
        (fun r => decide (r.ts =
          binStart (wfOrigin df) w (binIdx (wfOrigin df) w t0)))).length = 1) := by
  rw [window_features_rows_eq df uid w hcols hne]
  constructor
  · rw [List.map_map]
    rfl
  · rintro t0 ⟨s, hs, rfl⟩
    rw [List.filter_map, List.length_map]
    have hmem_s : s ∈ sortByTs df.rows :=
      (List.perm_insertionSort _ df.rows).mem_iff.mpr hs
    have hk1 : wfKmin df w ≤ binIdx (wfOrigin df) w s.ts :=
      binIdx_mono hw (minTs_le hmem_s)
    have hk2 : binIdx (wfOrigin df) w s.ts ≤ wfKmax df w :=
      binIdx_mono hw (le_maxTs hmem_s)
    have hcast : ((wfKmax df w - wfKmin df w + 1).toNat : Int) =
        wfKmax df w - wfKmin df w + 1 := Int.toNat_of_nonneg (by omega)
    have hmem : binIdx (wfOrigin df) w s.ts ∈
        intRange (wfKmin df w) ((wfKmax df w - wfKmin df w + 1).toNat) :=
      mem_intRange.mpr ⟨hk1, by rw [hcast]; omega⟩
    have hfc : ∀ k' ∈ intRange (wfKmin df w)
        ((wfKmax df w - wfKmin df w + 1).toNat),
        ((fun r => decide (r.ts =
            binStart (wfOrigin df) w (binIdx (wfOrigin df) w s.ts))) ∘
          (fun k => aggBin uid (binStart (wfOrigin df) w k)
            ((featEng (sortByTs df.rows)).filter
              (fun r => decide (binIdx (wfOrigin df) w r.ts = k))))) k' =
          (k' == binIdx (wfOrigin df) w s.ts) := by
      intro k' _
      show decide (binStart (wfOrigin df) w k' =
        binStart (wfOrigin df) w (binIdx (wfOrigin df) w s.ts)) =
          (k' == binIdx (wfOrigin df) w s.ts)
      by_cases h : k' = binIdx (wfOrigin df) w s.ts
      · subst h
        simp
      · have hns : binStart (wfOrigin df) w k' ≠
            binStart (wfOrigin df) w (binIdx (wfOrigin df) w s.ts) :=
          fun hc => h (binStart_inj hw hc)
        simp [h, hns]
    rw [List.filter_congr hfc, ← List.countP_eq_length_filter]
    exact List.count_eq_one_of_mem
      (intRange_nodup _ _) hmem

/-- Witness for C2: the occupied-bin row count on the concrete table. -/
theorem c2_row_per_bin_witness :
    ((window_features dfC "user_1" 60).1.filter
      (fun r => decide (r.ts =
        binStart (wfOrigin dfC) 60 (binIdx (wfOrigin dfC) 60 0)))).length = 1 :=
  (c2_row_per_bin dfC "user_1" 60 (by decide) (by decide) (by decide)).2 0
    ⟨dfC.rows.getD 0 default, by decide, by decide⟩

/-- **C10.** Bin boundaries are aligned to midnight of the first sample's
calendar day, not to the first sample: every output bin-start timestamp is a
multiple of the bin width past that midnight, and on the concrete table
`dfOff` (single sample at `t = 90`) the first bin starts at `60`, strictly
before the earliest input timestamp `90`. -/
theorem c10_bin_origin_alignment :
    (∀ (df : Df) (uid : String) (w : Int), 0 < w →
      ∀ r ∈ (window_features df uid w).1,
        w ∣ (r.ts - midnight (minTs (sortByTs df.rows)))) ∧
    ((window_features dfOff "user_1" 60).1.map (fun r => r.ts) = [60] ∧
      minTs dfOff.rows = 90) := by
  constructor
  · intro df uid w hw r hr
    by_cases hcols : expected_cols.all (fun c => df.cols.contains c) = true
    · by_cases hne : sortByTs df.rows = []
      · unfold window_features at hr
        rw [hcols] at hr
        simp [hne] at hr
      · rw [window_features_rows_eq df uid w hcols hne] at hr
        rcases List.mem_map.mp hr with ⟨k, hk, rfl⟩
        show w ∣ (binStart (wfOrigin df) w k - midnight (minTs (sortByTs df.rows)))
        exact ⟨k, by unfold binStart wfOrigin; ring⟩
    · have hf : expected_cols.all (fun c => df.cols.contains c) = false :=
        Bool.eq_false_iff.mpr hcols
      unfold window_features at hr
      rw [hf] at hr
      simp at hr
  · exact ⟨by decide, by decide⟩

/-- Witness for C10 on the concrete misaligned table. -/
theorem c10_bin_origin_alignment_witness :
    (60 : Int) ∣
      (((window_features dfOff "user_1" 60).1.getD 0 default).ts -
        midnight (minTs (sortByTs dfOff.rows))) :=
  c10_bin_origin_alignment.1 dfOff "user_1" 60 (by decide)
    ((window_features dfOff "user_1" 60).1.getD 0 default)
    (getD_zero_mem _ (by decide))

lemma featEng_ts_steps (rows : List Row) :
    (featEng rows).map (fun r => (r.ts, r.steps)) =
      rows.map (fun r => (r.ts, r.steps)) := by
  unfold featEng
  apply List.ext_getElem
  · simp
  · intro n h1 h2
    have hn : n < rows.length := by simpa using h2
    simp only [List.getElem_map, List.getElem_range, List.getD_eq_getElem rows default hn]

lemma featEng_filter_steps (rows : List Row) (o w k : Int) :
    ((featEng rows).filter
        (fun x => decide (binIdx o w x.ts = k))).map (fun x => x.steps) =
      (rows.filter (fun x => decide (binIdx o w x.ts = k))).map
        (fun x => x.steps) := by
  have e1 : ((featEng rows).filter
      (fun x => decide (binIdx o w x.ts = k))).map (fun x => x.steps) =
      (((featEng rows).map (fun r => (r.ts, r.steps))).filter
        (fun c => decide (binIdx o w c.1 = k))).map (fun c => c.2) := by
    rw [List.filter_map, List.map_map]
    rfl
  have e2 : (rows.filter (fun x => decide (binIdx o w x.ts = k))).map
      (fun x => x.steps) =
      ((rows.map (fun r => (r.ts, r.steps))).filter
        (fun c => decide (binIdx o w c.1 = k))).map (fun c => c.2) := by
    rw [List.filter_map, List.map_map]
    rfl
  rw [e1, featEng_ts_steps rows]
  exact e2.symm

/-- **C9.** For every output row of `window_features`, the reported step-count
sum equals the sum of the raw per-sample step counts whose timestamps fall in
the bin's half-open interval `[bin start, bin start + width)`. -/
theorem c9_step_sum_conservation (df : Df) (uid : String) (w : Int) (hw : 0 < w) :
    ∀ r ∈ (window_features df uid w).1,
      r.steps_sum =
        ((df.rows.filter (fun s => decide (r.ts ≤ s.ts ∧ s.ts < r.ts + w))).map
          (fun s => s.steps)).sum := by
  intro r hr
  by_cases hcols : expected_cols.all (fun c => df.cols.contains c) = true
  · by_cases hne : sortByTs df.rows = []
    · unfold window_features at hr
      rw [hcols] at hr
      simp [hne] at hr
    · rw [window_features_rows_eq df uid w hcols hne] at hr
      rcases List.mem_map.mp hr with ⟨k, _, rfl⟩
      show (((featEng (sortByTs df.rows)).filter
          (fun x => decide (binIdx (wfOrigin df) w x.ts = k))).map
            (fun x => x.steps)).sum =
        ((df.rows.filter (fun s => decide (binStart (wfOrigin df) w k ≤ s.ts ∧
          s.ts < binStart (wfOrigin df) w k + w))).map (fun s => s.steps)).sum
      rw [featEng_filter_steps]
      have hperm : ((sortByTs df.rows).filter
          (fun x => decide (binIdx (wfOrigin df) w x.ts = k))).Perm
            (df.rows.filter
              (fun x => decide (binIdx (wfOrigin df) w x.ts = k))) :=
        List.Perm.filter _ (List.perm_insertionSort _ df.rows)
      rw [List.Perm.sum_eq (List.Perm.map (fun x : Row => x.steps) hperm)]
      have hfe : df.rows.filter
          (fun x => decide (binIdx (wfOrigin df) w x.ts = k)) =
          df.rows.filter (fun s => decide (binStart (wfOrigin df) w k ≤ s.ts ∧
            s.ts < binStart (wfOrigin df) w k + w)) :=
        List.filter_congr (fun s _ => decide_eq_decide.mpr (binIdx_eq_iff hw))
      rw [hfe]
  · have hf : expected_cols.all (fun c => df.cols.contains c) = false :=
      Bool.eq_false_iff.mpr hcols
    unfold window_features at hr
    rw [hf] at hr
    simp at hr

/-- Witness for C9 on the concrete table `dfC`: the first output bin. -/
theorem c9_step_sum_conservation_witness :
    frowC.steps_sum =
      ((dfC.rows.filter
        (fun s => decide (frowC.ts ≤ s.ts ∧ s.ts < frowC.ts + 60))).map
          (fun s => s.steps)).sum :=
  c9_step_sum_conservation dfC "user_1" 60 (by decide) frowC
    (getD_zero_mem _ (by decide))

/-! ## Helper lemmas on rolling statistics and gap filling -/

lemma listMean_const {xs : List ℚ} {c : ℚ} (hne : xs ≠ [])
    (h : ∀ x ∈ xs, x = c) : listMean xs = c := by
  have hrep := List.eq_replicate_of_mem h
  unfold listMean
  conv_lhs => rw [hrep]
  rw [List.sum_replicate, List.length_replicate, nsmul_eq_mul]
  exact mul_div_cancel_left₀ c
    (Nat.cast_ne_zero.mpr (fun h0 => hne (List.length_eq_zero.mp h0)))

lemma sampleVar_const_of_two_le {xs : List ℚ} {c : ℚ} (hlen : 2 ≤ xs.length)
    (h : ∀ x ∈ xs, x = c) : sampleVar xs = some 0 := by
  have hne : xs ≠ [] := by
    intro h0
    rw [h0] at hlen
    simp at hlen
  have hmean : listMean xs = c := listMean_const hne h
  have hz : ∀ y ∈ xs.map (fun x => (x - listMean xs) ^ 2), y = 0 := by
    intro y hy
    rcases List.mem_map.mp hy with ⟨x, hx, rfl⟩
    rw [h x hx, hmean]
    ring
  unfold sampleVar
  rw [if_pos hlen]
  rw [List.eq_replicate_of_mem hz, List.sum_replicate, smul_zero, zero_div]

lemma sampleVar_of_lt_two {xs : List ℚ} (hlen : xs.length < 2) :
    sampleVar xs = none := by
  unfold sampleVar
  rw [if_neg (by omega)]

lemma self_mem_windVals (f : Row → ℚ) (rows : List Row) {w : Int} {i : Nat}
    (hi : i < rows.length) (hw : 0 < w) :
    f (rows.getD i default) ∈ windVals f rows w i := by
  unfold windVals
  apply List.mem_map_of_mem
  apply List.mem_filter.mpr
  refine ⟨?_, decide_eq_true (by linarith)⟩
  rw [List.getD_eq_getElem rows default hi]
  have h1 : rows.take (i + 1) = rows.take i ++ [rows[i]] := by
    rw [List.take_succ, List.getElem?_eq_getElem hi]
    rfl
  rw [h1]
  exact List.mem_append_right _ (List.mem_singleton.mpr rfl)

lemma windVals_const {f : Row → ℚ} {rows : List Row} {c : ℚ} {w : Int} {i : Nat}
    (hc : ∀ r ∈ rows, f r = c) : ∀ x ∈ windVals f rows w i, x = c := by
  intro x hx
  rcases List.mem_map.mp hx with ⟨r, hr, rfl⟩
  exact hc r (List.mem_of_mem_take (List.mem_filter.mp hr).1)

lemma windVals_two_le (f : Row → ℚ) (rows : List Row) {w : Int} {p : Nat}
    (hp : p + 1 < rows.length) (hw : 0 < w)
    (hgap : (rows.getD (p + 1) default).ts - (rows.getD p default).ts < w) :
    2 ≤ (windVals f rows w (p + 1)).length := by
  have hp0 : p < rows.length := by omega
  unfold windVals
  rw [List.length_map]
  have h1 : rows.take (p + 1 + 1) = (rows.take p ++ [rows[p]]) ++ [rows[p + 1]] := by
    rw [List.take_succ, List.getElem?_eq_getElem hp, List.take_succ,
      List.getElem?_eq_getElem hp0]
    rfl
  have hgap' : (rows.getD (p + 1) default).ts - w < rows[p].ts := by
    rw [List.getD_eq_getElem rows default hp0] at hgap
    linarith
  have hself : (rows.getD (p + 1) default).ts - w < rows[p + 1].ts := by
    rw [List.getD_eq_getElem rows default hp] at hgap ⊢
    linarith
  rw [h1, List.filter_append, List.filter_append]
  simp only [List.filter_cons, decide_eq_true hgap', decide_eq_true hself,
    List.filter_nil, List.length_append]
  simp

lemma ffillGo_const {α : Type} (a : α) : ∀ l : List (Option α),
    (∀ x ∈ l, x = none ∨ x = some a) →
    ffillGo (some a) l = List.replicate l.length (some a) := by
  intro l
  induction l with
  | nil => intro _; rfl
  | cons x xs ih =>
    intro h
    rcases h x (List.mem_cons_self x xs) with rfl | rfl
    · show some a :: ffillGo (some a) xs = _
      rw [ih (fun y hy => h y (List.mem_cons_of_mem _ hy))]
      rfl
    · show some a :: ffillGo (some a) xs = _
      rw [ih (fun y hy => h y (List.mem_cons_of_mem _ hy))]
      rfl

lemma ffillGo_none_shape {α : Type} (a : α) : ∀ l : List (Option α),
    (∀ x ∈ l, x = none ∨ x = some a) → (∃ x ∈ l, x = some a) →
    ∃ n m, l.length = n + m ∧ 1 ≤ m ∧
      ffillGo none l = List.replicate n none ++ List.replicate m (some a) := by
  intro l
  induction l with
  | nil =>
    rintro _ ⟨x, hx, _⟩
    exact absurd hx (List.not_mem_nil x)
  | cons x xs ih =>
    intro hall hex
    rcases hall x (List.mem_cons_self x xs) with rfl | rfl
    · have hex' : ∃ y ∈ xs, y = some a := by
        rcases hex with ⟨y, hy, hya⟩
        rcases List.mem_cons.mp hy with rfl | hy'
        · exact absurd hya (by simp)
        · exact ⟨y, hy', hya⟩
      rcases ih (fun y hy => hall y (List.mem_cons_of_mem _ hy)) hex' with
        ⟨n, m, hlen, hm, heq⟩
      refine ⟨n + 1, m, by simp [hlen]; omega, hm, ?_⟩
      show none :: ffillGo none xs = _
      rw [heq, List.replicate_succ]
      rfl
    · refine ⟨0, xs.length + 1, by rw [List.length_cons]; omega, by omega, ?_⟩
      show some a :: ffillGo (some a) xs = _
      rw [ffillGo_const a xs (fun y hy => hall y (List.mem_cons_of_mem _ hy))]
      simp [List.replicate_succ]

lemma bfill_shape {α : Type} (a : α) (n m : Nat) (hm : 1 ≤ m) :
    bfill (List.replicate n none ++ List.replicate m (some a)) =
      List.replicate (n + m) (some a) := by
  unfold bfill
  rw [List.reverse_append, List.reverse_replicate, List.reverse_replicate]
  match m, hm with
  | m' + 1, _ =>
    rw [List.replicate_succ]
    show (some a :: ffillGo (some a) (List.replicate m' (some a) ++ List.replicate n none)).reverse = _
    rw [ffillGo_const a _ (by
      intro y hy
      rcases List.mem_append.mp hy with hy' | hy'
      · exact Or.inr (List.eq_of_mem_replicate hy')
      · exact Or.inl (List.eq_of_mem_replicate hy'))]
    rw [List.length_append, List.length_replicate, List.length_replicate]
    rw [← List.replicate_succ, List.reverse_replicate]
    congr 1
    omega

lemma fill_all_some {α : Type} (a : α) (l : List (Option α))
    (hall : ∀ x ∈ l, x = none ∨ x = some a) (hex : ∃ x ∈ l, x = some a) :
    ∀ v ∈ bfill (ffill l), v = some a := by
  rcases ffillGo_none_shape a l hall hex with ⟨n, m, _, hm, heq⟩
  intro v hv
  rw [ffill] at hv
  rw [heq, bfill_shape a n m hm] at hv
  exact List.eq_of_mem_replicate hv

/-- **C8, counterexample.** On a single-sample series with constant heart
rate (`dfOff.rows`), the rolling standard deviation is `NaN` at the only
position and remains `NaN` after forward-fill-then-backward-fill (there is no
valid value to propagate), so it does not equal zero at every position. -/
theorem c8_counterexample :
    bfill (ffill (rollStdCol (fun r => r.hr) dfOff.rows 300)) = [none] ∧
    ¬ ∀ v ∈ bfill (ffill (rollStdCol (fun r => r.hr) dfOff.rows 300)),
        v = some (0 : ℚ) := by
  decide

/-- **C8 (amended).** For a constant-valued signal, every rolling-mean value
(`min_periods = 1`) equals the constant, at every position including the
first; and provided some adjacent pair of samples lies closer than the
rolling window length — so that at least one window holds two observations —
every rolling-standard-deviation value equals zero (as a variance: `some 0`)
after the forward-fill-then-backward-fill step, at every position including
the first. -/
theorem c8_constant_signal (rows : List Row) (f : Row → ℚ) (c : ℚ) (w : Int)
    (hc : ∀ r ∈ rows, f r = c) (hw : w ∈ windows)
    (hgap : ∃ p, p + 1 < rows.length ∧
      (rows.getD (p + 1) default).ts - (rows.getD p default).ts < w) :
    (∀ m ∈ rollMeanCol f rows w, m = c) ∧
    (∀ v ∈ bfill (ffill (rollStdCol f rows w)), v = some 0) := by
  have hw0 : 0 < w := by
    simp only [windows, List.mem_cons, List.not_mem_nil, or_false] at hw
    rcases hw with rfl | rfl <;> norm_num
  constructor
  · intro m hm
    rcases List.mem_map.mp hm with ⟨i, hi, rfl⟩
    have hi' : i < rows.length := List.mem_range.mp hi
    have hne : windVals f rows w i ≠ [] :=
      List.ne_nil_of_mem (self_mem_windVals f rows hi' hw0)
    exact listMean_const hne (windVals_const hc)
  · rcases hgap with ⟨p, hp, hgap⟩
    have hall : ∀ v ∈ rollStdCol f rows w, v = none ∨ v = some 0 := by
      intro v hv
      rcases List.mem_map.mp hv with ⟨i, _, rfl⟩
      by_cases hlen : 2 ≤ (windVals f rows w i).length
      · exact Or.inr (sampleVar_const_of_two_le hlen (windVals_const hc))
      · exact Or.inl (sampleVar_of_lt_two (by omega))
    have hex : ∃ v ∈ rollStdCol f rows w, v = some 0 := by
      refine ⟨sampleVar (windVals f rows w (p + 1)), ?_, ?_⟩
      · exact List.mem_map_of_mem _ (List.mem_range.mpr hp)
      · exact sampleVar_const_of_two_le (windVals_two_le f rows hp hw0 hgap)
          (windVals_const hc)
    exact fill_all_some 0 _ hall hex

/-- Witness for C8 on the concrete two-sample constant-heart-rate table. -/
theorem c8_constant_signal_witness :
    (∀ m ∈ rollMeanCol (fun r => r.hr) dfC.rows 300, m = 70) ∧
    (∀ v ∈ bfill (ffill (rollStdCol (fun r => r.hr) dfC.rows 300)),
      v = some 0) :=
  c8_constant_signal dfC.rows (fun r => r.hr) 70 300 (by decide) (by decide)
    ⟨0, by decide, by decide⟩

/-! ## Helper lemmas for the `prepare_user_data` pipeline -/

lemma dedupGo_filter_of_mem (t : Int) : ∀ (l : List (Int × ℚ)) (seen : List Int),
    t ∈ seen →
    (dedupGo seen l).filter (fun p => decide (p.1 = t)) = [] := by
  intro l
  induction l with
  | nil => intro seen _; rfl
  | cons x xs ih =>
    intro seen hseen
    unfold dedupGo
    by_cases hx : x.1 ∈ seen
    · rw [if_pos hx]
      exact ih seen hseen
    · rw [if_neg hx]
      have hxt : decide (x.1 = t) = false :=
        decide_eq_false (fun h => hx (h ▸ hseen))
      rw [List.filter_cons, hxt]
      simp only [Bool.false_eq_true, if_false]
      exact ih (x.1 :: seen) (List.mem_cons_of_mem _ hseen)

lemma dedupGo_filter_of_not_mem (t : Int) :
    ∀ (l : List (Int × ℚ)) (seen : List Int), t ∉ seen →
    (dedupGo seen l).filter (fun p => decide (p.1 = t)) =
      (l.filter (fun p => decide (p.1 = t))).take 1 := by
  intro l
  induction l with
  | nil => intro seen _; rfl
  | cons x xs ih =>
    intro seen hseen
    unfold dedupGo
    by_cases hx : x.1 ∈ seen
    · rw [if_pos hx]
      have hxt : decide (x.1 = t) = false :=
        decide_eq_false (fun h => hseen (h ▸ hx))
      rw [List.filter_cons, hxt]
      simp only [Bool.false_eq_true, if_false]
      exact ih seen hseen
    · rw [if_neg hx]
      by_cases hxt : x.1 = t
      · have hd : decide (x.1 = t) = true := decide_eq_true hxt
        rw [List.filter_cons, hd]
        simp only [if_true]
        rw [List.filter_cons, hd]
        simp only [if_true]
        rw [dedupGo_filter_of_mem t xs (x.1 :: seen)
          (hxt ▸ List.mem_cons_self x.1 seen)]
        rfl
      · have hd : decide (x.1 = t) = false := decide_eq_false hxt
        rw [List.filter_cons, hd]
        simp only [Bool.false_eq_true, if_false]
        rw [List.filter_cons, hd]
        simp only [Bool.false_eq_true, if_false]
        exact ih (x.1 :: seen)
          (fun h => (List.mem_cons.mp h).elim (fun h' => hxt h'.symm) hseen)

lemma dedupFirst_filter (t : Int) (l : List (Int × ℚ)) :
    (dedupFirst l).filter (fun p => decide (p.1 = t)) =
      (l.filter (fun p => decide (p.1 = t))).take 1 :=
  dedupGo_filter_of_not_mem t l [] (List.not_mem_nil t)

lemma intRange_filter {t lo : Int} : ∀ {n : Nat}, lo ≤ t → t < lo + n →
    (intRange lo n).filter (fun τ => decide (τ = t)) = [t] := by
  intro n
  induction n generalizing lo with
  | zero =>
    intro h1 h2
    omega
  | succ m ih =>
    intro h1 h2
    show (lo :: intRange (lo + 1) m).filter (fun τ => decide (τ = t)) = [t]
    by_cases hlo : lo = t
    · rw [List.filter_cons, decide_eq_true hlo]
      simp only [if_true]
      have hnil : (intRange (lo + 1) m).filter (fun τ => decide (τ = t)) = [] := by
        rw [List.filter_eq_nil_iff]
        intro τ hτ
        have := mem_intRange.mp hτ
        simp only [decide_eq_true_eq]
        omega
      rw [hnil, hlo]
    · rw [List.filter_cons, decide_eq_false hlo]
      simp only [Bool.false_eq_true, if_false]
      exact ih (by omega) (by omega)

lemma resample1s_eq {l : List (Int × ℚ)} (h : l ≠ []) :
    resample1s l =
      (intRange (minFst l) ((maxFst l - minFst l + 1).toNat)).map
        (fun t => (t, secMean l t)) := by
  match l with
  | [] => exact absurd rfl h
  | x :: xs => rfl

lemma mergeOne_ts (rrs : List (Int × Option ℚ)) (a : Row) :
    ∀ m ∈ mergeOne rrs a, m.ts = a.ts := by
  intro m hm
  unfold mergeOne at hm
  by_cases h : (rrs.filter (fun p => decide (p.1 = a.ts))).isEmpty
  · rw [if_pos h] at hm
    rw [List.mem_singleton.mp hm]
  · rw [if_neg h] at hm
    rcases List.mem_map.mp hm with ⟨q, _, rfl⟩
    rfl

lemma mergeLeft_filter_single (t : Int) (v : Option ℚ)
    (rrs : List (Int × Option ℚ))
    (hrr : rrs.filter (fun p => decide (p.1 = t)) = [(t, v)]) :
    ∀ act : List Row,
    ((mergeLeft act rrs).filter (fun m => decide (m.ts = t))).length =
      (act.filter (fun a => decide (a.ts = t))).length ∧
    ∀ m ∈ (mergeLeft act rrs).filter (fun m => decide (m.ts = t)), m.bpm = v := by
  intro act
  induction act with
  | nil => exact ⟨rfl, by intro m hm; exact absurd hm (List.not_mem_nil m)⟩
  | cons a rest ih =>
    have hsplit : (mergeLeft (a :: rest) rrs).filter (fun m => decide (m.ts = t)) =
        (mergeOne rrs a).filter (fun m => decide (m.ts = t)) ++
          (mergeLeft rest rrs).filter (fun m => decide (m.ts = t)) := by
      unfold mergeLeft
      rw [List.flatMap_cons, List.filter_append]
    by_cases hat : a.ts = t
    · have hone : (mergeOne rrs a).filter (fun m => decide (m.ts = t)) =
          [{ ts := a.ts, hr := a.hr, vm := a.vm, steps := a.steps, bpm := v }] := by
        unfold mergeOne
        rw [hat, hrr]
        simp
      constructor
      · rw [hsplit, List.length_append, hone, ih.1, List.filter_cons,
          decide_eq_true (show a.ts = t from hat)]
        simp only [if_true, List.length_cons, List.length_singleton, List.length_nil]
        omega
      · intro m hm
        rw [hsplit] at hm
        rcases List.mem_append.mp hm with hm | hm
        · rw [hone] at hm
          rw [List.mem_singleton.mp hm]
        · exact ih.2 m hm
    · have hone : (mergeOne rrs a).filter (fun m => decide (m.ts = t)) = [] := by
        rw [List.filter_eq_nil_iff]
        intro m hm
        simp only [decide_eq_true_eq]
        rw [mergeOne_ts rrs a m hm]
        exact hat
      constructor
      · rw [hsplit, List.length_append, hone, ih.1, List.filter_cons,
          decide_eq_false (show ¬ a.ts = t from hat)]
        simp only [Bool.false_eq_true, if_false, List.length_nil]
        omega
      · intro m hm
        rw [hsplit, hone, List.nil_append] at hm
        exact ih.2 m hm

/-- **C7.** When heart-interval samples share a timestamp, the merged output
of `prepare_user_data` has exactly one rate row at that timestamp (given the
activity timeline holds it once), the rate derives from the first-seen sample
(`60 / ibi` of the first occurrence), and — structurally — deduplication
happens before the per-second resampling and interpolation:
`rrInterp = interp ∘ resample1s ∘ dedupFirst ∘ toBpm`. -/
theorem c7_dedup_first_wins (rr : List RRSample) (act : List Row) (t : Int)
    (x : ℚ)
    (_hdup : 2 ≤ (rr.filter (fun p => decide (p.1 = t))).length)
    (hfirst : (rr.filter (fun p => decide (p.1 = t))).head? = some (t, x))
    (hact : (act.filter (fun a => decide (a.ts = t))).length = 1) :
    (((prepare_user_data rr act).filter (fun m => decide (m.ts = t))).length = 1 ∧
      ∀ m ∈ (prepare_user_data rr act).filter (fun m => decide (m.ts = t)),
        m.bpm = some (60 / x)) ∧
    rrInterp rr = interp (resample1s (dedupFirst (toBpm rr))) := by
  have h1 : (toBpm rr).filter (fun p => decide (p.1 = t)) =
      (rr.filter (fun p => decide (p.1 = t))).map (fun p => (p.1, 60 / p.2)) := by
    unfold toBpm
    rw [List.filter_map]
    rfl
  have hfb : ((toBpm rr).filter (fun p => decide (p.1 = t))).head? =
      some (t, 60 / x) := by
    rw [h1, List.head?_map, hfirst]
    rfl
  have hdd : (dedupFirst (toBpm rr)).filter (fun p => decide (p.1 = t)) =
      [(t, 60 / x)] := by
    rw [dedupFirst_filter, List.take_one, hfb]
    rfl
  have hmemD : ((t, 60 / x) : Int × ℚ) ∈ dedupFirst (toBpm rr) :=
    List.mem_of_mem_filter (by rw [hdd]; exact List.mem_singleton.mpr rfl)
  have hDne : dedupFirst (toBpm rr) ≠ [] := List.ne_nil_of_mem hmemD
  have hlo : minFst (dedupFirst (toBpm rr)) ≤ t := minFst_le hmemD
  have hhi : t ≤ maxFst (dedupFirst (toBpm rr)) := le_maxFst hmemD
  have hsec : secMean (dedupFirst (toBpm rr)) t = some (60 / x) := by
    unfold secMean
    rw [hdd]
    simp [listMeanO, listMean]
  have hcast : ((maxFst (dedupFirst (toBpm rr)) - minFst (dedupFirst (toBpm rr))
      + 1).toNat : Int) =
      maxFst (dedupFirst (toBpm rr)) - minFst (dedupFirst (toBpm rr)) + 1 :=
    Int.toNat_of_nonneg (by omega)
  have hgrid : (resample1s (dedupFirst (toBpm rr))).filter
      (fun p => decide (p.1 = t)) = [(t, some (60 / x))] := by
    rw [resample1s_eq hDne, List.filter_map]
    have hfil : (intRange (minFst (dedupFirst (toBpm rr)))
        ((maxFst (dedupFirst (toBpm rr)) - minFst (dedupFirst (toBpm rr))
          + 1).toNat)).filter
          ((fun p => decide (p.1 = t)) ∘
            (fun τ => (τ, secMean (dedupFirst (toBpm rr)) τ))) = [t] :=
      intRange_filter hlo (by rw [hcast]; omega)
    rw [hfil, List.map_singleton, hsec]
  have hint : (rrInterp rr).filter (fun p => decide (p.1 = t)) =
      [(t, some (60 / x))] := by
    unfold rrInterp interp
    rw [List.filter_map]
    show (((resample1s (dedupFirst (toBpm rr))).filter
        (fun p => decide (p.1 = t))).map
          (fun p => (p.1, interpVal (resample1s (dedupFirst (toBpm rr))) p.1 p.2))) = _
    rw [hgrid]
    rfl
  have hm := mergeLeft_filter_single t (some (60 / x)) (rrInterp rr) hint act
  refine ⟨⟨?_, hm.2⟩, rfl⟩
  show ((mergeLeft act (rrInterp rr)).filter (fun m => decide (m.ts = t))).length = 1
  rw [hm.1]
  exact hact

/-- Witness for C7 on the concrete duplicated input `rrC`/`actC`. -/
theorem c7_dedup_first_wins_witness :
    (((prepare_user_data rrC actC).filter
        (fun m => decide (m.ts = 10))).length = 1 ∧
      ∀ m ∈ (prepare_user_data rrC actC).filter (fun m => decide (m.ts = 10)),
        m.bpm = some (60 / 1)) ∧
    rrInterp rrC = interp (resample1s (dedupFirst (toBpm rrC))) :=
  c7_dedup_first_wins rrC actC 10 1 (by decide) (by decide) (by decide)

end Pulse
